import Mathlib

/-!
Verification of the span-alignment and literal-restoration subsystem of genienlp
(genienlp/paraphrase/model_utils.py): the strict aligner replace_quoted_params and the
forced aligner force_replace_quoted_params.

Python strings are modelled as lists of characters (Python indexes strings per
character), token sequences as lists of such lists, and the pooled attention matrix as a
list of rows (one row per target token) of integer weights: only the argmax of a column
matters to the code, so any linearly ordered weight type is faithful.  Detokenization
(tokenizer.convert_tokens_to_string / spm DecodePieces) and tokenizer.tokenize are
external capabilities of the surrounding library and are passed in as function
parameters, exactly as the specification's interface section describes them.  A raised
Python exception is modelled by the value none.
-/

set_option maxHeartbeats 1000000

namespace GenieNLP

/-- A subword token, modelled as its list of characters (a Python str). -/
abbrev Token := List Char

/-- A character string, modelled as a list of characters. -/
abbrev Str := List Char

/-- Python: any(symbol in token for symbol in symbols); every quotation symbol used by
the code is a single character, so substring containment is character membership. -/
def containsAny (syms : List Char) (tok : Token) : Bool :=
  tok.any (fun c => syms.contains c)

/-- model_utils.py lines 246-249 and 353: indices of the tokens that contain a quotation
symbol (the enumerate-filter list comprehension). -/
def spanIndices (syms : List Char) (tokens : List Token) : List Nat :=
  (List.range tokens.length).filter (fun i => containsAny syms (tokens.getD i []))

/-- Pair up consecutive elements of a list, dropping a trailing unpaired element. -/
def pairUp : List Nat → List (Nat × Nat)
  | a :: b :: rest => (a, b) :: pairUp rest
  | _ => []

/-- model_utils.py lines 267-268 and 372: arrange spans and exclude the quotation-mark
indices, pairing the marker indices consecutively. -/
def mkSpans (inds : List Nat) : List (Nat × Nat) :=
  (pairUp inds).map (fun p => (p.1 + 1, p.2 - 1))

/-- Tail-recursive scan for the index of the first maximal element. -/
def argmaxFrom : List Int → Nat → Nat → Int → Nat
  | [], _, bi, _ => bi
  | x :: rest, i, bi, bv =>
    if bv < x then argmaxFrom rest (i + 1) i x else argmaxFrom rest (i + 1) bi bv

/-- Index of the first maximal element of a list (torch.argmax semantics on a nonempty
tensor). -/
def argmaxList : List Int → Nat
  | [] => 0
  | x :: rest => argmaxFrom rest 1 0 x

/-- Column i of the pooled attention matrix, sample_layer_attention_pooled[:, i]; the
rows are indexed by target position.  none models the IndexError when the matrix has a
row shorter than i + 1 and the RuntimeError of argmax on an empty tensor. -/
def attnCol (A : List (List Int)) (i : Nat) : Option (List Int) :=
  if A.all (fun r => decide (i < r.length)) && !A.isEmpty then
    some (A.map (fun r => r.getD i 0))
  else none

/-- The value torch.argmax(sample_layer_attention_pooled[:, i]).item(), read off a
well-formed matrix. -/
def argAt (A : List (List Int)) (i : Nat) : Nat :=
  argmaxList (A.map (fun r => r.getD i 0))

/-- Indices of quotation-symbol characters in a string. -/
def charQuoteIndices (syms : List Char) (s : Str) : List Nat :=
  (List.range s.length).filter (fun i => syms.contains (s.getD i ' '))

/-- re.finditer of the quoted-content pattern (a quotation symbol, optional space, lazy
non-quote content, optional space, quotation symbol), model_utils.py lines 323-327 and
384-386.  Because the content class excludes every quotation symbol and the match is
lazy, each match of group(0) runs from one quotation character to the next unconsumed
one, so the match list pairs up consecutive quotation-character indices; spans are the
half-open character ranges of group(0), as returned by match.span(). -/
def quoteMatches (syms : List Char) (s : Str) : List (Nat × Nat) :=
  (pairUp (charQuoteIndices syms s)).map (fun p => (p.1, p.2 + 1))

/-- Python string slice s[a:b] for 0 ≤ a ≤ b. -/
def sub (s : Str) (a b : Nat) : Str := (s.drop a).take (b - a)

/-- Number of quotation-symbol occurrences in a string. -/
def countQ (syms : List Char) (s : Str) : Nat := (s.filter (fun c => syms.contains c)).length

/-- Python ' '.join. -/
def joinSpace (l : List Str) : Str := (l.intersperse [' ']).flatten

/-- model_utils.py lines 284-290: the inner for loop with break; the first target span in
list order that contains the attention-argmax index and has not yet been claimed. -/
def findTgtSpan (tgtSpans claimed : List (Nat × Nat)) (m : Nat) : Option Nat :=
  (List.range tgtSpans.length).find? (fun j =>
    decide ((tgtSpans.getD j (0, 0)).1 ≤ m) && decide (m ≤ (tgtSpans.getD j (0, 0)).2) &&
      !claimed.contains (tgtSpans.getD j (0, 0)))

/-- model_utils.py lines 280-295, the while loop over the token positions of one source
span: outer none models a raised indexing error inside argmax, some none means no
position of the span matched an unclaimed target span. -/
def scanSpanGo (A : List (List Int)) (tgtSpans claimed : List (Nat × Nat)) :
    List Nat → Option (Option Nat)
  | [] => some none
  | i :: rest =>
    match attnCol A i with
    | none => none
    | some col =>
      match findTgtSpan tgtSpans claimed (argmaxList col) with
      | some j => some (some j)
      | none => scanSpanGo A tgtSpans claimed rest

/-- The token positions beg, beg + 1, ..., en visited by the while i <= end loop. -/
def posRun (beg en : Nat) : List Nat := (List.range (en + 1 - beg)).map (fun k => beg + k)

def scanSpan (A : List (List Int)) (tgtSpans claimed : List (Nat × Nat)) (beg en : Nat) :
    Option (Option Nat) :=
  scanSpanGo A tgtSpans claimed (posRun beg en)

/-- model_utils.py lines 276-301: the for loop over source spans, threading the set of
claimed target spans; returns the matched target-span index for each source span in
source order.  some none is the soft failure of line 301, outer none a raised error. -/
def alignLoop (A : List (List Int)) (tgtSpans : List (Nat × Nat)) :
    List (Nat × Nat) → List (Nat × Nat) → List Nat → Option (Option (List Nat))
  | [], _, acc => some (some acc.reverse)
  | (beg, en) :: rest, claimed, acc =>
    match scanSpan A tgtSpans claimed beg en with
    | none => none
    | some none => some none
    | some (some j) =>
        alignLoop A tgtSpans rest (claimed ++ [tgtSpans.getD j (0, 0)]) (j :: acc)

/-- tgt2src_mapping_index[pos]: invert the source-to-target index dictionary (on a
duplicated value the last key wins, as in a Python dict comprehension) and look the
position up; none is a KeyError. -/
def invLookup (mIdx : List Nat) (pos : Nat) : Option Nat :=
  ((List.range mIdx.length).filter (fun k => mIdx.getD k 0 == pos)).getLast?

/-- model_utils.py lines 332-342: the character-level splice; walks the target matches
left to right, copying untouched target text and substituting the whole source match of
the mapped source span; none models the KeyError / IndexError of the two lookups. -/
def spliceGo (tgtS srcS : Str) (srcMatches : List (Nat × Nat)) (mIdx : List Nat) :
    Nat → Nat → List (Nat × Nat) → Option (List Str)
  | curr, _, [] => some (if curr < tgtS.length then [sub tgtS curr tgtS.length] else [])
  | curr, pos, (start, e) :: rest =>
    match invLookup mIdx pos with
    | none => none
    | some k =>
      match srcMatches.get? k with
      | none => none
      | some (a, b) =>
        (spliceGo tgtS srcS srcMatches mIdx e (pos + 1) rest).map
          (fun tl => (if curr < start then [sub tgtS curr start] else []) ++ sub srcS a b :: tl)

/-- model_utils.py line 241: src_quotation_symbols. -/
def srcQuoteSyms : List Char := ['"']

/-- model_utils.py lines 242-244: tgt_quotation_symbols, extended for Russian. -/
def tgtQuoteSyms (tgtLang : String) : List Char :=
  if tgtLang = "ru" then ['"', '«', '»'] else ['"']

/-- model_utils.py lines 233-346, replace_quoted_params.  The detokenizer
(tokenizer.convert_tokens_to_string, or the spm DecodePieces pair when model_type is
marian) is the external capability detokSrc / detokTgt; none models a raised
exception. -/
def replace_quoted_params (srcTokens tgtTokens : List Token)
    (detokSrc detokTgt : List Token → Str) (A : List (List Int)) (tgtLang : String) :
    Option (Str × Bool) :=
  let srcSyms : List Char := srcQuoteSyms
  let tgtSyms : List Char := tgtQuoteSyms tgtLang
  let srcSpansInd := spanIndices srcSyms srcTokens
  let tgtSpansInd := spanIndices tgtSyms tgtTokens
  let srcStrings := detokSrc srcTokens
  let tgtStrings := detokTgt tgtTokens
  if srcSpansInd.length % 2 ≠ 0 then some (tgtStrings, false)
  else if tgtSpansInd.length % 2 ≠ 0 then some (tgtStrings, false)
  else
    let srcSpans := mkSpans srcSpansInd
    let tgtSpans := mkSpans tgtSpansInd
    if srcSpans.length ≠ tgtSpans.length then some (tgtStrings, false)
    else
      match alignLoop A tgtSpans srcSpans [] [] with
      | none => none
      | some none => some (tgtStrings, false)
      | some (some mIdx) =>
        match spliceGo tgtStrings srcStrings (quoteMatches srcSyms srcStrings) mIdx 0 0
            (quoteMatches tgtSyms tgtStrings) with
        | none => none
        | some pieces => some (joinSpace pieces, true)

/-- SPIECE_UNDERLINE from transformers_utils. -/
def SPIECE : Char := '▁'

/-- model_utils.py line 354: tgt_is_piece; none models the IndexError of token[0] on an
empty token. -/
def tgtIsPieceList (tgtTokens : List Token) : Option (List Int) :=
  tgtTokens.mapM (fun t =>
    match t.head? with
    | none => none
    | some c => some (if c = SPIECE then (1 : Int) else 0))

/-- Running sums, np.cumsum. -/
def cumsumFrom : List Int → Int → List Int
  | [], _ => []
  | x :: rest, acc => (acc + x) :: cumsumFrom rest (acc + x)

/-- model_utils.py line 355: tgt_piece2word_mapping = cumsum(tgt_is_piece) - 1. -/
def piece2word (isPiece : List Int) : List Int :=
  (cumsumFrom isPiece 0).map (fun x => x - 1)

/-- Python list indexing with an int subscript (a negative index addresses from the
end); none is an IndexError. -/
def pyGet (l : List Int) (i : Int) : Option Int :=
  if 0 ≤ i ∧ i < (l.length : Int) then l.get? i.toNat
  else if -(l.length : Int) ≤ i ∧ i < 0 then l.get? (i + l.length).toNat
  else none

/-- model_utils.py lines 357-362: the forced-mode auto-repair, src_tokens +=
tokenizer.tokenize of a quotation mark when the marker count is odd; quoteToks is the
token list produced by the external tokenizer for one quotation mark. -/
def repairedSrc (srcTokens quoteToks : List Token) : List Token :=
  if (spanIndices ['"'] srcTokens).length % 2 ≠ 0 then srcTokens ++ quoteToks else srcTokens

/-- model_utils.py lines 374-382: for each source span only the two boundary positions
are used; their attention argmaxes are clamped with min(s, len(tgt_tokens) - 1).  none
models a raised indexing error inside argmax. -/
def forcedTokenMapping (A : List (List Int)) (tgtLen : Nat) :
    List (Nat × Nat) → Option (List ((Nat × Nat) × (Int × Int)))
  | [] => some []
  | (beg, en) :: rest =>
    match attnCol A beg with
    | none => none
    | some colB =>
      match attnCol A en with
      | none => none
      | some colE =>
        (forcedTokenMapping A tgtLen rest).map (fun tl =>
          ((beg, en),
            (min (argmaxList colB : Int) ((tgtLen : Int) - 1),
             min (argmaxList colE : Int) ((tgtLen : Int) - 1))) :: tl)

/-- model_utils.py lines 389-396: map the boundary token indices to word indices through
tgt_piece2word_mapping and widen by one word on each side; none models the caught
IndexError re-raised as the fatal ValueError. -/
def forcedWordMapping (pw : List Int) (tgtLen : Nat) :
    List ((Nat × Nat) × (Int × Int)) → Option (List ((Nat × Nat) × (Nat × Nat)))
  | [] => some []
  | (key, s1, s2) :: rest =>
    match pyGet pw s1 with
    | none => none
    | some w1 =>
      match pyGet pw s2 with
      | none => none
      | some w2 =>
        (forcedWordMapping pw tgtLen rest).map (fun tl =>
          (key, ((max 0 (w1 - 1)).toNat, (min (w2 + 1) (tgtLen : Int)).toNat)) :: tl)

/-- Python word-list slice words[a:b]. -/
def subW (l : List Str) (a b : Nat) : List Str := (l.drop a).take (b - a)

/-- model_utils.py lines 399-410: the word-level splice; none models the IndexError on
src_matches[i]. -/
def forcedSpliceGo (words : List Str) (srcMatches : List (Nat × Nat)) (srcS : Str) :
    Nat → Nat → List ((Nat × Nat) × (Nat × Nat)) → Option (List Str)
  | curr, _, [] => some (if curr < words.length then subW words curr words.length else [])
  | curr, i, (_, start, e) :: rest =>
    match srcMatches.get? i with
    | none => none
    | some (a, b) =>
      (forcedSpliceGo words srcMatches srcS e (i + 1) rest).map
        (fun tl => (if curr < start then subW words curr start else []) ++ sub srcS a b :: tl)

/-- Python str.split(' '): split on every single space, keeping empty pieces. -/
def splitSpace (s : Str) : List Str := s.splitOn ' '

/-- model_utils.py lines 349-414, force_replace_quoted_params; none models any raised
exception. -/
def force_replace_quoted_params (srcTokens tgtTokens quoteToks : List Token)
    (detokSrc detokTgt : List Token → Str) (A : List (List Int)) : Option Str :=
  match tgtIsPieceList tgtTokens with
  | none => none
  | some isPiece =>
    let pw := piece2word isPiece
    let srcTokens' := repairedSrc srcTokens quoteToks
    let srcStrings := detokSrc srcTokens'
    let tgtStrings := detokTgt tgtTokens
    let srcSpans := mkSpans (spanIndices ['"'] srcTokens')
    match forcedTokenMapping A tgtTokens.length srcSpans with
    | none => none
    | some mapping =>
      match forcedWordMapping pw tgtTokens.length mapping with
      | none => none
      | some wmapping =>
        match forcedSpliceGo (splitSpace tgtStrings) (quoteMatches ['"'] srcStrings)
            srcStrings 0 0 wmapping with
        | none => none
        | some toks => some (joinSpace toks)

/-- Well-formedness of a match list relative to a current scan position: the matches are
ordered left to right, nonempty as character ranges, and lie within the string. -/
def MatchesWF (len : Nat) : Nat → List (Nat × Nat) → Prop
  | _, [] => True
  | cur, (a, b) :: rest => cur ≤ a ∧ a < b ∧ b ≤ len ∧ MatchesWF len b rest

theorem pairUp_length : ∀ l : List Nat, (pairUp l).length = l.length / 2
  | [] => by simp [pairUp]
  | [_] => by simp [pairUp]
  | _ :: _ :: rest => by
    simp only [pairUp, List.length_cons, pairUp_length rest]
    omega

theorem pairUp_getElem : ∀ (l : List Nat) (i : Nat) (h : i < (pairUp l).length),
    (pairUp l).get ⟨i, h⟩ = (l.getD (2 * i) 0, l.getD (2 * i + 1) 0)
  | [], i, h => absurd h (by simp [pairUp])
  | [_], i, h => absurd h (by simp [pairUp])
  | a :: b :: rest, 0, _ => by simp [pairUp]
  | a :: b :: rest, i + 1, h => by
    have ih := pairUp_getElem rest i (by simpa [pairUp] using h)
    have e1 : 2 * (i + 1) = 2 * i + 1 + 1 := by omega
    rw [e1]
    simp only [pairUp, List.get_eq_getElem, List.getElem_cons_succ, List.getD_cons_succ]
    simpa [List.get_eq_getElem] using ih

/-- An adjacent pair produced by pairUp splits the list around its two elements. -/
theorem pairUp_mem_split : ∀ (l : List Nat) (a b : Nat), (a, b) ∈ pairUp l →
    ∃ l1 l2, l = l1 ++ a :: b :: l2
  | [], _, _, hmem => absurd hmem (by simp [pairUp])
  | [_], _, _, hmem => absurd hmem (by simp [pairUp])
  | x :: y :: rest, a, b, hmem => by
    rcases List.mem_cons.mp hmem with heq | htail
    · obtain ⟨rfl, rfl⟩ := Prod.mk.injEq .. ▸ heq
      exact ⟨[], rest, by simp_all⟩
    · obtain ⟨l1, l2, hl⟩ := pairUp_mem_split rest a b htail
      exact ⟨x :: y :: l1, l2, by simp [hl]⟩

theorem mem_filterRange {n : Nat} {p : Nat → Bool} {j : Nat} :
    j ∈ (List.range n).filter p ↔ j < n ∧ p j = true := by
  simp [List.mem_filter, List.mem_range]

theorem filterRange_pairwise (n : Nat) (p : Nat → Bool) :
    ((List.range n).filter p).Pairwise (· < ·) :=
  (List.pairwise_lt_range n).filter p

/-- Two quotation-mark indices paired by pairUp over the filtered index list are ordered,
in range, both satisfy the predicate, and no index strictly between them does. -/
theorem pairUp_filterRange_facts {n : Nat} {p : Nat → Bool} {a b : Nat}
    (hmem : (a, b) ∈ pairUp ((List.range n).filter p)) :
    a < b ∧ b < n ∧ p a = true ∧ p b = true ∧ ∀ j, a < j → j < b → p j = false := by
  obtain ⟨l1, l2, hl⟩ := pairUp_mem_split _ a b hmem
  have hsort := filterRange_pairwise n p
  rw [hl] at hsort
  rw [List.pairwise_append] at hsort
  obtain ⟨-, hcons, hcross⟩ := hsort
  rw [List.pairwise_cons] at hcons
  obtain ⟨hahead, hcons2⟩ := hcons
  rw [List.pairwise_cons] at hcons2
  obtain ⟨hbhead, -⟩ := hcons2
  have hab : a < b := hahead b (List.mem_cons_self _ _)
  have hamem : a ∈ (List.range n).filter p := by rw [hl]; simp
  have hbmem : b ∈ (List.range n).filter p := by rw [hl]; simp
  have hafacts := mem_filterRange.mp hamem
  have hbfacts := mem_filterRange.mp hbmem
  refine ⟨hab, hbfacts.1, hafacts.2, hbfacts.2, ?_⟩
  intro j hja hjb
  by_contra hpj
  have hpj' : p j = true := by
    cases hj : p j
    · exact absurd hj hpj
    · rfl
  have hjmem : j ∈ (List.range n).filter p :=
    mem_filterRange.mpr ⟨Nat.lt_trans hjb hbfacts.1, hpj'⟩
  rw [hl] at hjmem
  rcases List.mem_append.mp hjmem with hj1 | hj2
  · have := hcross j hj1 a (List.mem_cons_self _ _)
    omega
  · rcases List.mem_cons.mp hj2 with rfl | hj3
    · omega
    · rcases List.mem_cons.mp hj3 with rfl | hj4
      · omega
      · have := hbhead j hj4
        omega

theorem sub_zero_length (s : Str) : sub s 0 s.length = s := by
  simp [sub]

theorem sub_self (s : Str) (a : Nat) : sub s a a = [] := by
  simp [sub]

theorem sub_append (s : Str) {a b c : Nat} (hab : a ≤ b) (hbc : b ≤ c) :
    sub s a b ++ sub s b c = sub s a c := by
  unfold sub
  rw [show c - a = (b - a) + (c - b) by omega, List.take_add, List.drop_drop,
    show a + (b - a) = b by omega]

theorem sub_single (s : Str) {a : Nat} (h : a < s.length) :
    sub s a (a + 1) = [s.get ⟨a, h⟩] := by
  unfold sub
  rw [show a + 1 - a = 1 by omega, List.drop_eq_getElem_cons h]
  rfl

theorem mem_sub {s : Str} {a b : Nat} {c : Char} (hmem : c ∈ sub s a b) :
    ∃ j, a ≤ j ∧ j < b ∧ ∃ hj : j < s.length, s.get ⟨j, hj⟩ = c := by
  unfold sub at hmem
  obtain ⟨m, hm, hc⟩ := List.mem_iff_getElem.mp hmem
  have hm' : m < b - a ∧ m < s.length - a := by
    have := List.length_take (b - a) (s.drop a)
    rw [List.length_drop] at this
    omega
  have hj : a + m < s.length := by omega
  refine ⟨a + m, by omega, by omega, hj, ?_⟩
  rw [List.getElem_take, List.getElem_drop] at hc
  rw [List.get_eq_getElem]
  exact hc

theorem countQ_append (syms : List Char) (s t : Str) :
    countQ syms (s ++ t) = countQ syms s + countQ syms t := by
  simp [countQ, List.filter_append]

theorem countQ_flatten (syms : List Char) :
    ∀ l : List Str, countQ syms l.flatten = (l.map (countQ syms)).sum
  | [] => rfl
  | s :: rest => by
    simp only [List.flatten_cons, countQ_append, List.map_cons, List.sum_cons,
      countQ_flatten syms rest]

theorem countQ_space (syms : List Char) (hsp : (' ' : Char) ∉ syms) :
    countQ syms [' '] = 0 := by
  simp [countQ, List.filter_cons, hsp]

theorem countQ_joinSpace (syms : List Char) (hsp : (' ' : Char) ∉ syms) :
    ∀ l : List Str, countQ syms (joinSpace l) = (l.map (countQ syms)).sum
  | [] => rfl
  | [s] => by simp [joinSpace, List.intersperse, countQ]
  | s :: t :: rest => by
    have ih := countQ_joinSpace syms hsp (t :: rest)
    simp only [joinSpace, List.intersperse_cons_cons, List.flatten_cons, countQ_append] at ih ⊢
    rw [countQ_space syms hsp]
    simp only [List.map_cons, List.sum_cons] at ih ⊢
    omega

theorem matchesWF_go {n : Nat} : ∀ (l : List Nat) (cur : Nat),
    l.Pairwise (· < ·) → (∀ x ∈ l, x < n) → (∀ x ∈ l, cur ≤ x) →
    MatchesWF n cur ((pairUp l).map (fun p => (p.1, p.2 + 1)))
  | [], _, _, _, _ => by simp [pairUp, MatchesWF]
  | [x], _, _, _, _ => by simp [pairUp, MatchesWF]
  | x :: y :: rest, cur, hp, hn, hc => by
    simp only [pairUp, List.map_cons]
    rw [List.pairwise_cons] at hp
    obtain ⟨hx, hp2⟩ := hp
    rw [List.pairwise_cons] at hp2
    obtain ⟨hy, hp3⟩ := hp2
    refine ⟨hc x (by simp), ?_, ?_, ?_⟩
    · have : x < y := hx y (by simp)
      omega
    · have : y < n := hn y (by simp)
      omega
    · exact matchesWF_go rest (y + 1) hp3
        (fun z hz => hn z (by simp [hz]))
        (fun z hz => by have := hy z hz; omega)

theorem quoteMatches_wf (syms : List Char) (s : Str) :
    MatchesWF s.length 0 (quoteMatches syms s) :=
  matchesWF_go _ 0 (filterRange_pairwise _ _)
    (fun _ hx => (mem_filterRange.mp hx).1) (fun _ _ => Nat.zero_le _)

/-- Every regex match contains exactly two quotation symbols: the two delimiters. -/
theorem quoteMatch_countQ {syms : List Char} {s : Str} {m1 m2 : Nat}
    (hmem : (m1, m2) ∈ quoteMatches syms s) :
    countQ syms (sub s m1 m2) = 2 := by
  unfold quoteMatches at hmem
  obtain ⟨⟨a, b⟩, hab, heq⟩ := List.mem_map.mp hmem
  obtain ⟨rfl, rfl⟩ : a = m1 ∧ b + 1 = m2 := by
    constructor <;> simp_all
  obtain ⟨hab', hbn, hpa, hpb, hgap⟩ := pairUp_filterRange_facts hab
  have han : a < s.length := Nat.lt_trans hab' hbn
  have h1 : sub s a (b + 1) = sub s a (a + 1) ++ (sub s (a + 1) b ++ sub s b (b + 1)) := by
    rw [sub_append s (by omega : a + 1 ≤ b) (by omega : b ≤ b + 1),
      sub_append s (by omega : a ≤ a + 1) (by omega : a + 1 ≤ b + 1)]
  rw [h1, countQ_append, countQ_append]
  have hgeta : s.getD a ' ' = s.get ⟨a, han⟩ := by
    rw [List.getD_eq_getElem _ _ han, List.get_eq_getElem]
  have hgetb : s.getD b ' ' = s.get ⟨b, hbn⟩ := by
    rw [List.getD_eq_getElem _ _ hbn, List.get_eq_getElem]
  have hca : countQ syms (sub s a (a + 1)) = 1 := by
    rw [sub_single s han]
    simp only [countQ, List.filter]
    rw [← hgeta, hpa]
    rfl
  have hcb : countQ syms (sub s b (b + 1)) = 1 := by
    rw [sub_single s hbn]
    simp only [countQ, List.filter]
    rw [← hgetb, hpb]
    rfl
  have hcmid : countQ syms (sub s (a + 1) b) = 0 := by
    unfold countQ
    rw [List.filter_eq_nil_iff.mpr]
    · rfl
    · intro c hc
      obtain ⟨j, hj1, hj2, hj3, hj4⟩ := mem_sub hc
      have := hgap j (by omega) hj2
      rw [List.getD_eq_getElem _ _ hj3] at this
      simp only [List.get_eq_getElem] at hj4
      rw [hj4] at this
      simpa using this
  omega

theorem find?_range_some {n : Nat} {p : Nat → Bool} {j : Nat}
    (h : (List.range n).find? p = some j) :
    j < n ∧ p j = true ∧ ∀ k, k < j → p k = false := by
  rw [List.find?_eq_some_iff_getElem] at h
  obtain ⟨hpj, i, hi, hji, hbefore⟩ := h
  rw [List.length_range] at hi
  rw [List.getElem_range] at hji
  subst hji
  refine ⟨hi, hpj, ?_⟩
  intro k hk
  have := hbefore k hk
  rw [List.getElem_range] at this
  simpa using this

/-- The inner for loop picks the first target span in list order that contains the argmax
index and is unclaimed; every earlier span either misses the index or is claimed. -/
theorem findTgtSpan_some_facts {tgtSpans claimed : List (Nat × Nat)} {m j : Nat}
    (h : findTgtSpan tgtSpans claimed m = some j) :
    j < tgtSpans.length ∧
      (tgtSpans.getD j (0, 0)).1 ≤ m ∧ m ≤ (tgtSpans.getD j (0, 0)).2 ∧
      tgtSpans.getD j (0, 0) ∉ claimed ∧
      ∀ j', j' < j →
        ¬((tgtSpans.getD j' (0, 0)).1 ≤ m ∧ m ≤ (tgtSpans.getD j' (0, 0)).2 ∧
          tgtSpans.getD j' (0, 0) ∉ claimed) := by
  unfold findTgtSpan at h
  have hf := find?_range_some h
  obtain ⟨hj, hpj, hbefore⟩ := hf
  simp only [Bool.and_eq_true, decide_eq_true_eq, Bool.not_eq_true'] at hpj
  obtain ⟨⟨h1, h2⟩, h3⟩ := hpj
  refine ⟨hj, h1, h2, by simpa using h3, ?_⟩
  intro j' hj' hcon
  have hb := hbefore j' hj'
  simp only [Bool.and_eq_false_iff, decide_eq_false_iff_not, Bool.not_eq_false'] at hb
  rcases hb with (h5 | h5) | h5
  · exact h5 hcon.1
  · exact h5 hcon.2.1
  · exact hcon.2.2 (by simpa using h5)

/-- The while loop stops at the first position whose argmax falls in some unclaimed
target span; every earlier position of the run found no span. -/
theorem scanSpanGo_some_facts {A : List (List Int)} {T C : List (Nat × Nat)} {j : Nat} :
    ∀ l : List Nat, scanSpanGo A T C l = some (some j) →
    ∃ l1 i l2, l = l1 ++ i :: l2 ∧
      (∀ i' ∈ l1, attnCol A i' ≠ none ∧ findTgtSpan T C (argAt A i') = none) ∧
      attnCol A i ≠ none ∧ findTgtSpan T C (argAt A i) = some j
  | [], h => by simp [scanSpanGo] at h
  | i :: rest, h => by
    unfold scanSpanGo at h
    split at h
    · exact absurd h (by simp)
    next col hcol =>
      have hcolval : col = A.map (fun r => r.getD i 0) := by
        unfold attnCol at hcol
        split at hcol
        · exact (Option.some.injEq .. ▸ hcol).symm
        · exact absurd hcol (by simp)
      have hargs : argmaxList col = argAt A i := by rw [argAt, hcolval]
      split at h
      next j' hf =>
        obtain rfl : j' = j := by simpa using h
        exact ⟨[], i, rest, rfl, by simp, by simp [hcol], by rw [← hargs]; exact hf⟩
      next hf =>
        obtain ⟨l1, i', l2, hsplit, hall, hi1, hi2⟩ := scanSpanGo_some_facts rest h
        refine ⟨i :: l1, i', l2, by simp [hsplit], ?_, hi1, hi2⟩
        intro x hx
        rcases List.mem_cons.mp hx with rfl | hx'
        · exact ⟨by simp [hcol], by rw [← hargs]; exact hf⟩
        · exact hall x hx'

theorem posRun_split {beg en : Nat} {l1 l2 : List Nat} {i : Nat}
    (h : posRun beg en = l1 ++ i :: l2) :
    beg ≤ i ∧ i ≤ en ∧ ∀ i', beg ≤ i' → i' < i → i' ∈ l1 := by
  have hlen : (posRun beg en).length = en + 1 - beg := by
    simp [posRun]
  have hlen2 : l1.length + 1 + l2.length = en + 1 - beg := by
    rw [h] at hlen
    simp at hlen
    omega
  have hk : l1.length < en + 1 - beg := by omega
  have hl1 : l1 = (List.range l1.length).map (fun k => beg + k) := by
    have ht : (l1 ++ i :: l2).take l1.length = l1 := List.take_left _ _
    rw [← h] at ht
    unfold posRun at ht
    rw [← List.map_take, List.take_range, Nat.min_eq_left (by omega)] at ht
    exact ht.symm
  have hi : i = beg + l1.length := by
    have h2 : (l1 ++ i :: l2)[l1.length]? = some i := by
      rw [List.getElem?_append_right (Nat.le_refl _)]
      simp
    rw [← h] at h2
    unfold posRun at h2
    rw [List.getElem?_map, List.getElem?_range hk] at h2
    simp at h2
    omega
  refine ⟨by omega, by omega, ?_⟩
  intro i' hi'1 hi'2
  rw [hl1]
  rw [List.mem_map]
  exact ⟨i' - beg, by rw [List.mem_range]; omega, by omega⟩

/-- Every target span is claimed by at most one source span: the matched index list is
duplicate-free. -/
theorem alignLoop_nodup {A : List (List Int)} {tgtSpans : List (Nat × Nat)} :
    ∀ (spans claimed : List (Nat × Nat)) (acc m : List Nat),
    (∀ k ∈ acc, tgtSpans.getD k (0, 0) ∈ claimed) → acc.Nodup →
    alignLoop A tgtSpans spans claimed acc = some (some m) → m.Nodup
  | [], claimed, acc, m, hinv, hnd, h => by
    unfold alignLoop at h
    obtain rfl : acc.reverse = m := by simpa using h
    exact List.nodup_reverse.mpr hnd
  | (beg, en) :: rest, claimed, acc, m, hinv, hnd, h => by
    unfold alignLoop at h
    cases hs : scanSpan A tgtSpans claimed beg en with
    | none => rw [hs] at h; exact absurd h (by simp)
    | some o =>
      rw [hs] at h
      cases o with
      | none => exact absurd h (by simp)
      | some j =>
        have hnotc : tgtSpans.getD j (0, 0) ∉ claimed := by
          unfold scanSpan at hs
          obtain ⟨l1, i, l2, _, _, _, hfind⟩ := scanSpanGo_some_facts _ hs
          exact (findTgtSpan_some_facts hfind).2.2.2.1
        have hjnot : j ∉ acc := fun hj => hnotc (hinv j hj)
        refine alignLoop_nodup rest (claimed ++ [tgtSpans.getD j (0, 0)]) (j :: acc) m
          ?_ (List.nodup_cons.mpr ⟨hjnot, hnd⟩) h
        intro k hk
        rcases List.mem_cons.mp hk with rfl | hk'
        · exact List.mem_append.mpr (Or.inr (by simp))
        · exact List.mem_append.mpr (Or.inl (hinv k hk'))

theorem filterRange_eq_single {pos : Nat} : ∀ n, pos < n →
    (List.range n).filter (fun k => k == pos) = [pos]
  | 0, h => absurd h (by omega)
  | n + 1, h => by
    rw [List.range_succ, List.filter_append]
    rcases Nat.lt_or_ge pos n with hp | hp
    · rw [filterRange_eq_single n hp]
      have hne : (n == pos) = false := by
        simp only [beq_eq_false_iff_ne, ne_eq]
        omega
      simp [hne]
    · have hpn : pos = n := by omega
      subst hpn
      have h1 : (List.range pos).filter (fun k => k == pos) = [] := by
        rw [List.filter_eq_nil_iff]
        intro a ha
        rw [List.mem_range] at ha
        simp only [beq_iff_eq]
        omega
      simp [h1]

/-- Inverting the identity source-to-target index dictionary gives back the position. -/
theorem invLookup_range {n pos : Nat} (h : pos < n) :
    invLookup (List.range n) pos = some pos := by
  unfold invLookup
  have hcong : (List.range (List.range n).length).filter
      (fun k => (List.range n).getD k 0 == pos) =
      (List.range n).filter (fun k => k == pos) := by
    rw [List.length_range]
    apply List.filter_congr
    intro k hk
    rw [List.mem_range] at hk
    rw [List.getD_eq_getElem _ _ (by simpa using hk), List.getElem_range]
  rw [hcong, filterRange_eq_single n h]
  rfl

/-- Identity alignment: when the source-to-target index map is the identity and the
source string equals the target string, the splice reproduces the remaining target text
split into pieces whose concatenation is that text. -/
theorem spliceGo_id_join {tgtS : Str} {full : List (Nat × Nat)} {n : Nat}
    (hn : full.length ≤ n) :
    ∀ (suffix : List (Nat × Nat)) (pos curr : Nat),
    full.drop pos = suffix → curr ≤ tgtS.length → MatchesWF tgtS.length curr suffix →
    ∃ pieces, spliceGo tgtS tgtS full (List.range n) curr pos suffix = some pieces ∧
      pieces.flatten = sub tgtS curr tgtS.length
  | [], pos, curr, hdrop, hcurr, hwf => by
    unfold spliceGo
    refine ⟨_, rfl, ?_⟩
    by_cases hc : curr < tgtS.length
    · simp [hc]
    · have hce : curr = tgtS.length := by omega
      simp [hc, hce, sub_self]
  | (a, b) :: rest, pos, curr, hdrop, hcurr, hwf => by
    obtain ⟨hca, hab, hbl, hwf'⟩ := hwf
    have hposlen : pos < full.length := by
      by_contra hge
      rw [List.drop_eq_nil_of_le (by omega)] at hdrop
      exact absurd hdrop (by simp)
    have hposn : pos < n := lt_of_lt_of_le hposlen hn
    have hget : full.get? pos = some (a, b) := by
      have h0 : (full.drop pos)[0]? = some (a, b) := by rw [hdrop]; simp
      rw [List.getElem?_drop] at h0
      rw [List.get?_eq_getElem?]
      simpa using h0
    have hdrop' : full.drop (pos + 1) = rest := by
      have hd : full.drop (pos + 1) = (full.drop pos).drop 1 := by
        rw [List.drop_drop]
      rw [hd, hdrop]
      rfl
    obtain ⟨pieces, hsp, hfl⟩ :=
      spliceGo_id_join hn rest (pos + 1) b hdrop' (by omega) hwf'
    unfold spliceGo
    simp only [invLookup_range hposn, hget, hsp, Option.map_some']
    refine ⟨_, rfl, ?_⟩
    have hpre : ((if curr < a then [sub tgtS curr a] else []) : List Str).flatten
        = sub tgtS curr a := by
      by_cases hca' : curr < a
      · simp [hca']
      · have : curr = a := by omega
        simp [hca', this, sub_self]
    simp only [List.flatten_append, List.flatten_cons, hpre, hfl]
    rw [← List.append_assoc]
    rw [show sub tgtS curr a ++ sub tgtS a b = sub tgtS curr b from
      sub_append tgtS hca (by omega)]
    exact sub_append tgtS (by omega) hbl

/-- The splice preserves the quotation-symbol count when every source match and every
target match contains exactly two quotation symbols. -/
theorem spliceGo_count {syms : List Char} {tgtS srcS : Str} {srcMatches : List (Nat × Nat)}
    {mIdx : List Nat}
    (hsrc : ∀ m ∈ srcMatches, countQ syms (sub srcS m.1 m.2) = 2) :
    ∀ (suffix : List (Nat × Nat)) (pos curr : Nat) (pieces : List Str),
    curr ≤ tgtS.length → MatchesWF tgtS.length curr suffix →
    (∀ m ∈ suffix, countQ syms (sub tgtS m.1 m.2) = 2) →
    spliceGo tgtS srcS srcMatches mIdx curr pos suffix = some pieces →
    (pieces.map (countQ syms)).sum = countQ syms (sub tgtS curr tgtS.length)
  | [], pos, curr, pieces, hcurr, hwf, htm, h => by
    unfold spliceGo at h
    obtain rfl : _ = pieces := by simpa using h
    by_cases hc : curr < tgtS.length
    · simp [hc]
    · have hce : curr = tgtS.length := by omega
      simp [hc, hce, sub_self, countQ]
  | (a, b) :: rest, pos, curr, pieces, hcurr, hwf, htm, h => by
    obtain ⟨hca, hab, hbl, hwf'⟩ := hwf
    unfold spliceGo at h
    split at h
    · exact absurd h (by simp)
    next k hinv =>
      split at h
      · exact absurd h (by simp)
      next a' b' hget =>
        cases hrec : spliceGo tgtS srcS srcMatches mIdx b (pos + 1) rest with
        | none => rw [hrec] at h; exact absurd h (by simp)
        | some tl =>
          rw [hrec] at h
          obtain rfl : _ = pieces := by simpa using h
          have hsum := spliceGo_count hsrc rest (pos + 1) b tl (by omega) hwf'
            (fun m hm => htm m (by simp [hm])) hrec
          have hrep := hsrc (a', b') (List.get?_mem hget)
          have htgt := htm (a, b) (by simp)
          have hpre : (((if curr < a then [sub tgtS curr a] else []) : List Str).map
              (countQ syms)).sum = countQ syms (sub tgtS curr a) := by
            by_cases hca' : curr < a
            · simp [hca']
            · have : curr = a := by omega
              simp [hca', this, sub_self, countQ]
          have hsplit1 : countQ syms (sub tgtS curr tgtS.length) =
              countQ syms (sub tgtS curr a) + countQ syms (sub tgtS a b) +
                countQ syms (sub tgtS b tgtS.length) := by
            rw [← sub_append tgtS (by omega : curr ≤ b) (hbl : b ≤ tgtS.length),
              ← sub_append tgtS (by omega : curr ≤ a) (by omega : a ≤ b),
              countQ_append, countQ_append]
          simp only [List.map_append, List.map_cons, List.sum_append, List.sum_cons]
          rw [hpre, hsum, hsplit1, htgt]
          simp at hrep
          omega

theorem tgtQuoteSyms_eq {tgtLang : String} (h : tgtLang ≠ "ru") :
    tgtQuoteSyms tgtLang = srcQuoteSyms := by
  unfold tgtQuoteSyms srcQuoteSyms
  rw [if_neg h]

/-- Reaching the success branch: with even marker counts, equal span counts, a fully
matched alignment and a successful splice, the result is the spliced string with the
success flag. -/
theorem rqp_success_eq (srcTokens tgtTokens : List Token)
    (detokSrc detokTgt : List Token → Str) (A : List (List Int)) (tgtLang : String)
    (mIdx : List Nat) (pieces : List Str)
    (h1 : (spanIndices srcQuoteSyms srcTokens).length % 2 = 0)
    (h2 : (spanIndices (tgtQuoteSyms tgtLang) tgtTokens).length % 2 = 0)
    (h3 : (mkSpans (spanIndices srcQuoteSyms srcTokens)).length =
      (mkSpans (spanIndices (tgtQuoteSyms tgtLang) tgtTokens)).length)
    (h4 : alignLoop A (mkSpans (spanIndices (tgtQuoteSyms tgtLang) tgtTokens))
      (mkSpans (spanIndices srcQuoteSyms srcTokens)) [] [] = some (some mIdx))
    (h5 : spliceGo (detokTgt tgtTokens) (detokSrc srcTokens)
      (quoteMatches srcQuoteSyms (detokSrc srcTokens)) mIdx 0 0
      (quoteMatches (tgtQuoteSyms tgtLang) (detokTgt tgtTokens)) = some pieces) :
    replace_quoted_params srcTokens tgtTokens detokSrc detokTgt A tgtLang =
      some (joinSpace pieces, true) := by
  unfold replace_quoted_params
  simp only [h4, h5, if_neg (not_not_intro h1), if_neg (not_not_intro h2),
    if_neg (not_not_intro h3)]

/-- C1: whenever strict alignment returns success equal to false, on any of its failure
paths, the returned string is exactly the detokenized target token sequence. -/
theorem claim1_unchanged_on_failure (srcTokens tgtTokens : List Token)
    (detokSrc detokTgt : List Token → Str) (A : List (List Int)) (tgtLang : String)
    (s : Str)
    (h : replace_quoted_params srcTokens tgtTokens detokSrc detokTgt A tgtLang =
      some (s, false)) :
    s = detokTgt tgtTokens := by
  unfold replace_quoted_params at h
  dsimp only at h
  split at h
  · simp only [Option.some.injEq, Prod.mk.injEq] at h
    exact h.1.symm
  · split at h
    · simp only [Option.some.injEq, Prod.mk.injEq] at h
      exact h.1.symm
    · split at h
      · simp only [Option.some.injEq, Prod.mk.injEq] at h
        exact h.1.symm
      · split at h
        · exact absurd h (by simp)
        · simp only [Option.some.injEq, Prod.mk.injEq] at h
          exact h.1.symm
        · split at h
          · exact absurd h (by simp)
          · simp only [Option.some.injEq, Prod.mk.injEq] at h
            exact absurd h.2 (by simp)

/-- C3: when both marker counts are even but the numbers of extracted source and target
spans differ, strict alignment returns the detokenized target unchanged with success
false, raising nothing. -/
theorem claim3_span_count_mismatch (srcTokens tgtTokens : List Token)
    (detokSrc detokTgt : List Token → Str) (A : List (List Int)) (tgtLang : String)
    (h1 : (spanIndices srcQuoteSyms srcTokens).length % 2 = 0)
    (h2 : (spanIndices (tgtQuoteSyms tgtLang) tgtTokens).length % 2 = 0)
    (h3 : (mkSpans (spanIndices srcQuoteSyms srcTokens)).length ≠
      (mkSpans (spanIndices (tgtQuoteSyms tgtLang) tgtTokens)).length) :
    replace_quoted_params srcTokens tgtTokens detokSrc detokTgt A tgtLang =
      some (detokTgt tgtTokens, false) := by
  unfold replace_quoted_params
  simp only [if_neg (not_not_intro h1), if_neg (not_not_intro h2), if_pos h3]

/-- C2: in the strict aligner, scanning a source span from its begin to its end position,
the first position whose attention argmax lands in an unclaimed target span determines
the match, the chosen target span is the first unclaimed containing one in list order,
each claimed span is excluded from later candidacy so the produced index list is
duplicate-free, and a span with no match makes the whole call return the detokenized
target with success false. -/
theorem claim2_first_match_claiming (A : List (List Int)) (tgtSpans : List (Nat × Nat)) :
    (∀ (claimed : List (Nat × Nat)) (m j : Nat),
      findTgtSpan tgtSpans claimed m = some j →
      j < tgtSpans.length ∧
        (tgtSpans.getD j (0, 0)).1 ≤ m ∧ m ≤ (tgtSpans.getD j (0, 0)).2 ∧
        tgtSpans.getD j (0, 0) ∉ claimed ∧
        ∀ j', j' < j →
          ¬((tgtSpans.getD j' (0, 0)).1 ≤ m ∧ m ≤ (tgtSpans.getD j' (0, 0)).2 ∧
            tgtSpans.getD j' (0, 0) ∉ claimed)) ∧
    (∀ (claimed : List (Nat × Nat)) (beg en j : Nat),
      scanSpan A tgtSpans claimed beg en = some (some j) →
      ∃ i, beg ≤ i ∧ i ≤ en ∧ attnCol A i ≠ none ∧
        findTgtSpan tgtSpans claimed (argAt A i) = some j ∧
        ∀ i', beg ≤ i' → i' < i →
          attnCol A i' ≠ none ∧ findTgtSpan tgtSpans claimed (argAt A i') = none) ∧
    (∀ (srcSpans : List (Nat × Nat)) (m : List Nat),
      alignLoop A tgtSpans srcSpans [] [] = some (some m) → m.Nodup) ∧
    (∀ (srcTokens tgtTokens : List Token) (detokSrc detokTgt : List Token → Str)
      (tgtLang : String),
      (spanIndices srcQuoteSyms srcTokens).length % 2 = 0 →
      (spanIndices (tgtQuoteSyms tgtLang) tgtTokens).length % 2 = 0 →
      (mkSpans (spanIndices srcQuoteSyms srcTokens)).length =
        (mkSpans (spanIndices (tgtQuoteSyms tgtLang) tgtTokens)).length →
      alignLoop A (mkSpans (spanIndices (tgtQuoteSyms tgtLang) tgtTokens))
        (mkSpans (spanIndices srcQuoteSyms srcTokens)) [] [] = some none →
      replace_quoted_params srcTokens tgtTokens detokSrc detokTgt A tgtLang =
        some (detokTgt tgtTokens, false)) := by
  refine ⟨?_, ?_, ?_, ?_⟩
  · intro claimed m j h
    exact findTgtSpan_some_facts h
  · intro claimed beg en j h
    unfold scanSpan at h
    obtain ⟨l1, i, l2, hsplit, hall, hi1, hi2⟩ := scanSpanGo_some_facts _ h
    obtain ⟨hbi, hie, hmem⟩ := posRun_split hsplit
    exact ⟨i, hbi, hie, hi1, hi2, fun i' h1 h2 => hall i' (hmem i' h1 h2)⟩
  · intro srcSpans m h
    exact alignLoop_nodup srcSpans [] [] m (by simp) List.nodup_nil h
  · intro srcTokens tgtTokens detokSrc detokTgt tgtLang h1 h2 h3 h4
    unfold replace_quoted_params
    simp only [h4, if_neg (not_not_intro h1), if_neg (not_not_intro h2),
      if_neg (not_not_intro h3)]

/-- C4 (amended): on an idealized perfect translation, where the detokenized source and
target coincide, attention aligns the i-th source span to the i-th target span, the
locale is not ru, and the character-level match count does not exceed the span count,
strict alignment succeeds and its output is the original detokenized target cut into
pieces and re-joined with single spaces: the concatenation of the pieces is exactly the
original target string, but the joined output inserts one extra space at each splice
boundary, so it is textually identical to the original only when there is a single piece. -/
theorem claim4_round_trip (srcTokens tgtTokens : List Token)
    (detokSrc detokTgt : List Token → Str) (A : List (List Int)) (tgtLang : String)
    (hlang : tgtLang ≠ "ru")
    (hdetok : detokSrc srcTokens = detokTgt tgtTokens)
    (h1 : (spanIndices srcQuoteSyms srcTokens).length % 2 = 0)
    (h2 : (spanIndices (tgtQuoteSyms tgtLang) tgtTokens).length % 2 = 0)
    (h3 : (mkSpans (spanIndices srcQuoteSyms srcTokens)).length =
      (mkSpans (spanIndices (tgtQuoteSyms tgtLang) tgtTokens)).length)
    (h4 : alignLoop A (mkSpans (spanIndices (tgtQuoteSyms tgtLang) tgtTokens))
      (mkSpans (spanIndices srcQuoteSyms srcTokens)) [] [] =
      some (some (List.range (mkSpans (spanIndices srcQuoteSyms srcTokens)).length)))
    (h5 : (quoteMatches (tgtQuoteSyms tgtLang) (detokTgt tgtTokens)).length ≤
      (mkSpans (spanIndices srcQuoteSyms srcTokens)).length) :
    ∃ pieces : List Str,
      pieces.flatten = detokTgt tgtTokens ∧
      replace_quoted_params srcTokens tgtTokens detokSrc detokTgt A tgtLang =
        some (joinSpace pieces, true) := by
  have hsyms : tgtQuoteSyms tgtLang = srcQuoteSyms := tgtQuoteSyms_eq hlang
  obtain ⟨pieces, hsp, hfl⟩ := spliceGo_id_join h5
    (quoteMatches (tgtQuoteSyms tgtLang) (detokTgt tgtTokens)) 0 0 rfl
    (Nat.zero_le _) (quoteMatches_wf _ _)
  refine ⟨pieces, by rw [hfl, sub_zero_length], ?_⟩
  apply rqp_success_eq srcTokens tgtTokens detokSrc detokTgt A tgtLang _ pieces h1 h2 h3 h4
  have e2 : quoteMatches srcQuoteSyms (detokSrc srcTokens) =
      quoteMatches (tgtQuoteSyms tgtLang) (detokTgt tgtTokens) := by
    rw [hdetok, hsyms]
  rw [e2, hdetok]
  exact hsp

/-- C5 (amended): for a locale other than ru, whenever strict alignment returns at all,
the number of quotation-symbol occurrences in the returned string equals the number in
the original detokenized target string; each substitution swaps quoted content but
contributes exactly two delimiters, like the region it replaces. -/
theorem claim5_quote_count (srcTokens tgtTokens : List Token)
    (detokSrc detokTgt : List Token → Str) (A : List (List Int)) (tgtLang : String)
    (hlang : tgtLang ≠ "ru") (s : Str) (b : Bool)
    (h : replace_quoted_params srcTokens tgtTokens detokSrc detokTgt A tgtLang =
      some (s, b)) :
    countQ (tgtQuoteSyms tgtLang) s = countQ (tgtQuoteSyms tgtLang) (detokTgt tgtTokens) := by
  have hsyms : tgtQuoteSyms tgtLang = srcQuoteSyms := tgtQuoteSyms_eq hlang
  have hsp : (' ' : Char) ∉ tgtQuoteSyms tgtLang := by
    rw [hsyms]
    unfold srcQuoteSyms
    simp
  unfold replace_quoted_params at h
  dsimp only at h
  split at h
  · simp only [Option.some.injEq, Prod.mk.injEq] at h
    rw [← h.1]
  · split at h
    · simp only [Option.some.injEq, Prod.mk.injEq] at h
      rw [← h.1]
    · split at h
      · simp only [Option.some.injEq, Prod.mk.injEq] at h
        rw [← h.1]
      · split at h
        · exact absurd h (by simp)
        · simp only [Option.some.injEq, Prod.mk.injEq] at h
          rw [← h.1]
        next mIdx halign =>
          split at h
          · exact absurd h (by simp)
          next pieces hspl =>
            simp only [Option.some.injEq, Prod.mk.injEq] at h
            rw [← h.1]
            rw [countQ_joinSpace _ hsp]
            have hsrc : ∀ m ∈ quoteMatches srcQuoteSyms (detokSrc srcTokens),
                countQ (tgtQuoteSyms tgtLang) (sub (detokSrc srcTokens) m.1 m.2) = 2 := by
              intro m hm
              rw [hsyms]
              exact quoteMatch_countQ hm
            have htm : ∀ m ∈ quoteMatches (tgtQuoteSyms tgtLang) (detokTgt tgtTokens),
                countQ (tgtQuoteSyms tgtLang) (sub (detokTgt tgtTokens) m.1 m.2) = 2 :=
              fun _ hm => quoteMatch_countQ hm
            have hcount := spliceGo_count hsrc
              (quoteMatches (tgtQuoteSyms tgtLang) (detokTgt tgtTokens)) 0 0 pieces
              (Nat.zero_le _) (quoteMatches_wf _ _) htm hspl
            rw [hcount, sub_zero_length]

/-- When every target token is a nonempty string, tgt_is_piece is computed without
raising, has one entry per token, and every entry is 0 or 1. -/
theorem tgtIsPieceList_facts : ∀ ts : List Token, (∀ t ∈ ts, t ≠ []) →
    ∃ l, tgtIsPieceList ts = some l ∧ l.length = ts.length ∧ ∀ x ∈ l, x = 0 ∨ x = 1
  | [], _ => ⟨[], rfl, rfl, by simp⟩
  | t :: rest, htoks => by
    obtain ⟨l, hl, hlen, hent⟩ := tgtIsPieceList_facts rest (fun u hu => htoks u (by simp [hu]))
    obtain ⟨c, ts', rfl⟩ : ∃ c ts', t = c :: ts' := by
      cases t with
      | nil => exact absurd rfl (htoks [] (by simp))
      | cons c ts' => exact ⟨c, ts', rfl⟩
    refine ⟨(if c = SPIECE then (1 : Int) else 0) :: l, ?_, by simp [hlen], ?_⟩
    · unfold tgtIsPieceList at hl ⊢
      rw [List.mapM_cons, hl]
      rfl
    · intro x hx
      rcases List.mem_cons.mp hx with rfl | hx'
      · by_cases hc : c = SPIECE <;> simp [hc]
      · exact hent x hx'

theorem cumsumFrom_length : ∀ (l : List Int) (acc : Int), (cumsumFrom l acc).length = l.length
  | [], _ => rfl
  | _ :: rest, acc => by simp [cumsumFrom, cumsumFrom_length rest]

theorem piece2word_length (isPiece : List Int) :
    (piece2word isPiece).length = isPiece.length := by
  simp [piece2word, cumsumFrom_length]

theorem cumsumFrom_le_sum : ∀ (l : List Int) (acc : Int), (∀ y ∈ l, 0 ≤ y) →
    ∀ x ∈ cumsumFrom l acc, x ≤ acc + l.sum
  | [], _, _, x, hx => absurd hx (by simp [cumsumFrom])
  | y :: rest, acc, hpos, x, hx => by
    simp only [cumsumFrom, List.mem_cons] at hx
    have hs : (0 : Int) ≤ rest.sum :=
      List.sum_nonneg (fun z hz => hpos z (by simp [hz]))
    rcases hx with rfl | hx'
    · rw [List.sum_cons]
      omega
    · have := cumsumFrom_le_sum rest (acc + y) (fun z hz => hpos z (by simp [hz])) x hx'
      rw [List.sum_cons]
      omega

theorem sum_le_length_of_le_one : ∀ l : List Int, (∀ y ∈ l, y ≤ 1) →
    l.sum ≤ (l.length : Int)
  | [], _ => by simp
  | y :: rest, hle => by
    have h1 : y ≤ 1 := hle y (by simp)
    have h2 := sum_le_length_of_le_one rest (fun z hz => hle z (by simp [hz]))
    rw [List.sum_cons, List.length_cons]
    push_cast
    omega

/-- Entries of tgt_piece2word_mapping are at most word count minus one. -/
theorem piece2word_entry_le {isPiece : List Int} (hpos : ∀ y ∈ isPiece, 0 ≤ y)
    {w : Int} (hw : w ∈ piece2word isPiece) : w + 1 ≤ isPiece.sum := by
  unfold piece2word at hw
  obtain ⟨c, hc, rfl⟩ := List.mem_map.mp hw
  have := cumsumFrom_le_sum isPiece 0 hpos c hc
  omega

/-- A Python lookup at a nonnegative in-range int index succeeds. -/
theorem pyGet_some {l : List Int} {i : Int} (h1 : 0 ≤ i) (h2 : i < (l.length : Int)) :
    pyGet l i = some (l.getD i.toNat 0) := by
  unfold pyGet
  rw [if_pos ⟨h1, h2⟩]
  have hlt : i.toNat < l.length := by omega
  rw [List.get?_eq_getElem?, List.getElem?_eq_getElem hlt, List.getD_eq_getElem _ _ hlt]

/-- The first forced-mode loop stores, for the k-th source span, exactly the pair of
boundary attention argmaxes clamped with min at the last target-token index. -/
theorem forcedTokenMapping_facts (A : List (List Int)) (tgtLen : Nat) :
    ∀ (spans : List (Nat × Nat)) (mapping : List ((Nat × Nat) × (Int × Int))),
    forcedTokenMapping A tgtLen spans = some mapping →
    mapping.length = spans.length ∧
    ∀ k, k < spans.length →
      mapping.getD k ((0, 0), (0, 0)) =
        (spans.getD k (0, 0),
         (min ((argAt A (spans.getD k (0, 0)).1 : Nat) : Int) ((tgtLen : Int) - 1),
          min ((argAt A (spans.getD k (0, 0)).2 : Nat) : Int) ((tgtLen : Int) - 1)))
  | [], mapping, h => by
    obtain rfl : [] = mapping := by simpa [forcedTokenMapping] using h
    refine ⟨rfl, ?_⟩
    intro k hk
    exact absurd hk (by simp)
  | (beg, en) :: rest, mapping, h => by
    unfold forcedTokenMapping at h
    split at h
    · exact absurd h (by simp)
    next colB hcolB =>
      split at h
      · exact absurd h (by simp)
      next colE hcolE =>
        cases hrec : forcedTokenMapping A tgtLen rest with
        | none => rw [hrec] at h; exact absurd h (by simp)
        | some tl =>
          rw [hrec] at h
          obtain rfl : _ = mapping := by simpa using h
          obtain ⟨hlen, hk⟩ := forcedTokenMapping_facts A tgtLen rest tl hrec
          have hargB : argmaxList colB = argAt A beg := by
            unfold attnCol at hcolB
            split at hcolB
            · rw [argAt, Option.some.inj hcolB]
            · exact absurd hcolB (by simp)
          have hargE : argmaxList colE = argAt A en := by
            unfold attnCol at hcolE
            split at hcolE
            · rw [argAt, Option.some.inj hcolE]
            · exact absurd hcolE (by simp)
          refine ⟨by simp [hlen], ?_⟩
          intro k hklt
          cases k with
          | zero => simp [List.getD_cons_zero, hargB, hargE]
          | succ k' =>
            rw [List.getD_cons_succ, List.getD_cons_succ]
            exact hk k' (by simpa using hklt)

/-- The second forced-mode loop succeeds on in-range token indices and widens the word
range by one on each side, clamping at zero and at the given bound. -/
theorem forcedWordMapping_facts (pw : List Int) (tgtLen : Nat) :
    ∀ mapping : List ((Nat × Nat) × (Int × Int)),
    (∀ e ∈ mapping, 0 ≤ e.2.1 ∧ e.2.1 < (pw.length : Int) ∧
      0 ≤ e.2.2 ∧ e.2.2 < (pw.length : Int)) →
    ∃ wmap, forcedWordMapping pw tgtLen mapping = some wmap ∧
      wmap.length = mapping.length ∧
      ∀ k, k < mapping.length →
        wmap.getD k ((0, 0), (0, 0)) =
          ((mapping.getD k ((0, 0), (0, 0))).1,
           ((max 0 (pw.getD (mapping.getD k ((0, 0), (0, 0))).2.1.toNat 0 - 1)).toNat,
            (min (pw.getD (mapping.getD k ((0, 0), (0, 0))).2.2.toNat 0 + 1)
              (tgtLen : Int)).toNat))
  | [], _ => ⟨[], rfl, rfl, fun k hk => absurd hk (by simp)⟩
  | (key, s1, s2) :: rest, hb => by
    obtain ⟨hs1, hs1', hs2, hs2'⟩ := hb (key, s1, s2) (by simp)
    obtain ⟨wmap, hwm, hwlen, hwk⟩ := forcedWordMapping_facts pw tgtLen rest
      (fun e he => hb e (by simp [he]))
    refine ⟨(key, ((max 0 (pw.getD s1.toNat 0 - 1)).toNat,
      (min (pw.getD s2.toNat 0 + 1) (tgtLen : Int)).toNat)) :: wmap, ?_, ?_, ?_⟩
    · unfold forcedWordMapping
      simp only [pyGet_some hs1 hs1', pyGet_some hs2 hs2', hwm, Option.map_some']
    · simp [hwlen]
    · intro k hklt
      cases k with
      | zero => simp
      | succ k' =>
        rw [List.getD_cons_succ, List.getD_cons_succ]
        exact hwk k' (by simpa using hklt)

/-- The word-level splice succeeds as long as there is one source match for every
remaining mapping entry. -/
theorem forcedSpliceGo_total (words : List Str) (srcMatches : List (Nat × Nat)) (srcS : Str) :
    ∀ (wmapping : List ((Nat × Nat) × (Nat × Nat))) (i curr : Nat),
    i + wmapping.length ≤ srcMatches.length →
    ∃ out, forcedSpliceGo words srcMatches srcS curr i wmapping = some out
  | [], i, curr, _ => ⟨_, rfl⟩
  | (key, start, e) :: rest, i, curr, h => by
    have hi : i < srcMatches.length := by
      simp only [List.length_cons] at h
      omega
    obtain ⟨a, b, hab⟩ : ∃ a b, srcMatches.getD i (0, 0) = (a, b) := ⟨_, _, rfl⟩
    have hget : srcMatches.get? i = some (a, b) := by
      rw [List.get?_eq_getElem?, List.getElem?_eq_getElem hi, ← List.getD_eq_getElem _ (0, 0) hi,
        hab]
    obtain ⟨out, hout⟩ := forcedSpliceGo_total words srcMatches srcS rest (i + 1) e
      (by simp only [List.length_cons] at h; omega)
    refine ⟨(if curr < start then subW words curr start else []) ++ sub srcS a b :: out, ?_⟩
    unfold forcedSpliceGo
    simp only [hget, hout, Option.map_some']

/-- Reaching the end of force_replace_quoted_params: with all four stages successful the
result is the joined word list. -/
theorem force_replace_eq_of (srcTokens tgtTokens quoteToks : List Token)
    (detokSrc detokTgt : List Token → Str) (A : List (List Int))
    (isPiece : List Int) (mapping : List ((Nat × Nat) × (Int × Int)))
    (wmapping : List ((Nat × Nat) × (Nat × Nat))) (toks : List Str)
    (hip : tgtIsPieceList tgtTokens = some isPiece)
    (hmap : forcedTokenMapping A tgtTokens.length
      (mkSpans (spanIndices ['"'] (repairedSrc srcTokens quoteToks))) = some mapping)
    (hwm : forcedWordMapping (piece2word isPiece) tgtTokens.length mapping = some wmapping)
    (hsg : forcedSpliceGo (splitSpace (detokTgt tgtTokens))
      (quoteMatches ['"'] (detokSrc (repairedSrc srcTokens quoteToks)))
      (detokSrc (repairedSrc srcTokens quoteToks)) 0 0 wmapping = some toks) :
    force_replace_quoted_params srcTokens tgtTokens quoteToks detokSrc detokTgt A =
      some (joinSpace toks) := by
  unfold force_replace_quoted_params
  simp only [hip, hmap, hwm, hsg]

/-- With a nonempty target of nonempty tokens, a successful boundary-argmax stage and
enough source matches, forced alignment runs to completion: the word-index lookups all
succeed and a string is returned. -/
theorem force_replace_total (srcTokens tgtTokens quoteToks : List Token)
    (detokSrc detokTgt : List Token → Str) (A : List (List Int))
    (mapping : List ((Nat × Nat) × (Int × Int)))
    (hne : tgtTokens ≠ []) (htoks : ∀ t ∈ tgtTokens, t ≠ [])
    (hmap : forcedTokenMapping A tgtTokens.length
      (mkSpans (spanIndices ['"'] (repairedSrc srcTokens quoteToks))) = some mapping)
    (hsm : (mkSpans (spanIndices ['"'] (repairedSrc srcTokens quoteToks))).length ≤
      (quoteMatches ['"'] (detokSrc (repairedSrc srcTokens quoteToks))).length) :
    ∃ isPiece wmap out, tgtIsPieceList tgtTokens = some isPiece ∧
      forcedWordMapping (piece2word isPiece) tgtTokens.length mapping = some wmap ∧
      force_replace_quoted_params srcTokens tgtTokens quoteToks detokSrc detokTgt A =
        some out := by
  obtain ⟨isPiece, hip, hiplen, hipent⟩ := tgtIsPieceList_facts tgtTokens htoks
  have hlen1 : tgtTokens.length ≥ 1 := by
    cases tgtTokens with
    | nil => exact absurd rfl hne
    | cons t rest => simp
  have hpwlen : (piece2word isPiece).length = tgtTokens.length := by
    rw [piece2word_length, hiplen]
  obtain ⟨hmlen, hmk⟩ := forcedTokenMapping_facts A tgtTokens.length _ mapping hmap
  have hbounds : ∀ e ∈ mapping, 0 ≤ e.2.1 ∧ e.2.1 < ((piece2word isPiece).length : Int) ∧
      0 ≤ e.2.2 ∧ e.2.2 < ((piece2word isPiece).length : Int) := by
    intro e he
    obtain ⟨k, hk, hke⟩ := List.mem_iff_getElem.mp he
    have hklt : k < (mkSpans (spanIndices ['"'] (repairedSrc srcTokens quoteToks))).length := by
      omega
    have := hmk k hklt
    rw [List.getD_eq_getElem _ _ (by omega), hke] at this
    rw [this, hpwlen]
    refine ⟨le_min (Int.natCast_nonneg _) (by omega), ?_,
      le_min (Int.natCast_nonneg _) (by omega), ?_⟩
    · exact lt_of_le_of_lt (min_le_right _ _) (by omega)
    · exact lt_of_le_of_lt (min_le_right _ _) (by omega)
  obtain ⟨wmap, hwm, hwlen, hwk⟩ :=
    forcedWordMapping_facts (piece2word isPiece) tgtTokens.length mapping hbounds
  obtain ⟨out, hout⟩ := forcedSpliceGo_total (splitSpace (detokTgt tgtTokens))
    (quoteMatches ['"'] (detokSrc (repairedSrc srcTokens quoteToks)))
    (detokSrc (repairedSrc srcTokens quoteToks)) wmap 0 0 (by omega)
  exact ⟨isPiece, wmap, joinSpace out,
    hip, hwm, force_replace_eq_of srcTokens tgtTokens quoteToks detokSrc detokTgt A
      isPiece mapping wmap out hip hmap hwm hout⟩

theorem spanIndices_append (syms : List Char) (l1 l2 : List Token) :
    spanIndices syms (l1 ++ l2) =
      spanIndices syms l1 ++ (spanIndices syms l2).map (fun i => l1.length + i) := by
  unfold spanIndices
  rw [List.length_append, List.range_add, List.filter_append, List.filter_map]
  congr 1
  · apply List.filter_congr
    intro i hi
    rw [List.mem_range] at hi
    rw [List.getD_append _ _ _ _ hi]
  · congr 1
    apply List.filter_congr
    intro i hi
    rw [List.mem_range] at hi
    simp only [Function.comp]
    rw [List.getD_append_right _ _ _ _ (by omega), show l1.length + i - l1.length = i by omega]

theorem spanIndices_append_length (syms : List Char) (l1 l2 : List Token) :
    (spanIndices syms (l1 ++ l2)).length =
      (spanIndices syms l1).length + (spanIndices syms l2).length := by
  rw [spanIndices_append]
  simp

/-- C6 (amended): span extraction pairs marker indices consecutively, the i-th span is
exactly (q_2i + 1, q_2i+1 - 1) with the markers excluded, and every extracted span
satisfies 1 ≤ start, start ≤ end + 1 and end < length of the sequence; start ≤ end itself
can fail, namely when the two paired markers are adjacent. -/
theorem claim6_span_pairing (syms : List Char) (tokens : List Token)
    (heven : (spanIndices syms tokens).length % 2 = 0) :
    ((mkSpans (spanIndices syms tokens)).length = (spanIndices syms tokens).length / 2 ∧
      ∀ i, ∀ h : i < (mkSpans (spanIndices syms tokens)).length,
        (mkSpans (spanIndices syms tokens)).get ⟨i, h⟩ =
          ((spanIndices syms tokens).getD (2 * i) 0 + 1,
           (spanIndices syms tokens).getD (2 * i + 1) 0 - 1)) ∧
    ∀ sp ∈ mkSpans (spanIndices syms tokens),
      1 ≤ sp.1 ∧ sp.1 ≤ sp.2 + 1 ∧ sp.2 < tokens.length := by
  refine ⟨⟨?_, ?_⟩, ?_⟩
  · unfold mkSpans
    rw [List.length_map, pairUp_length]
  · intro i h
    unfold mkSpans at h ⊢
    have hlen : i < (pairUp (spanIndices syms tokens)).length := by
      simpa using h
    have hp := pairUp_getElem (spanIndices syms tokens) i hlen
    rw [List.get_eq_getElem] at hp
    simp only [List.get_eq_getElem, List.getElem_map, Fin.val_mk]
    rw [hp]
  · intro sp hsp
    unfold mkSpans at hsp
    obtain ⟨⟨a, b⟩, hab, rfl⟩ := List.mem_map.mp hsp
    unfold spanIndices at hab
    obtain ⟨hab', hbn, -, -, -⟩ := pairUp_filterRange_facts hab
    refine ⟨?_, ?_, ?_⟩
    · show 1 ≤ a + 1
      omega
    · show a + 1 ≤ b - 1 + 1
      omega
    · show b - 1 < tokens.length
      omega

/-- C9: the embedding passes the token sequences by value and the strict aligner reads
them unchanged; the only modification point in the subsystem is the forced-mode
auto-repair, which appends the synthetic quotation token exactly when the source marker
count is odd and leaves the sequence untouched otherwise. -/
theorem claim9_no_mutation (srcTokens quoteToks : List Token) :
    ((spanIndices ['"'] srcTokens).length % 2 = 0 →
      repairedSrc srcTokens quoteToks = srcTokens) ∧
    ((spanIndices ['"'] srcTokens).length % 2 ≠ 0 →
      repairedSrc srcTokens quoteToks = srcTokens ++ quoteToks) := by
  constructor
  · intro h
    unfold repairedSrc
    rw [if_neg (not_not_intro h)]
  · intro h
    unfold repairedSrc
    rw [if_pos h]

/-- C7: with an odd source marker count and an external tokenizer that yields a single
synthetic quotation token, the forced-mode auto-repair makes the marker count even, span
extraction pairs all markers, and, granted the target-side and attention well-formedness
the rest of the call relies on, processing completes without raising and returns a
string; only the source side is repaired, no target spans being extracted at all. -/
theorem claim7_auto_repair (srcTokens tgtTokens quoteToks : List Token)
    (detokSrc detokTgt : List Token → Str) (A : List (List Int))
    (mapping : List ((Nat × Nat) × (Int × Int)))
    (hodd : (spanIndices ['"'] srcTokens).length % 2 = 1)
    (hq : (spanIndices ['"'] quoteToks).length = 1)
    (hne : tgtTokens ≠ []) (htoks : ∀ t ∈ tgtTokens, t ≠ [])
    (hmap : forcedTokenMapping A tgtTokens.length
      (mkSpans (spanIndices ['"'] (srcTokens ++ quoteToks))) = some mapping)
    (hsm : (mkSpans (spanIndices ['"'] (srcTokens ++ quoteToks))).length ≤
      (quoteMatches ['"'] (detokSrc (srcTokens ++ quoteToks))).length) :
    (spanIndices ['"'] (srcTokens ++ quoteToks)).length % 2 = 0 ∧
    (mkSpans (spanIndices ['"'] (srcTokens ++ quoteToks))).length =
      ((spanIndices ['"'] srcTokens).length + 1) / 2 ∧
    ∃ out, force_replace_quoted_params srcTokens tgtTokens quoteToks detokSrc detokTgt A =
      some out := by
  have hrep : repairedSrc srcTokens quoteToks = srcTokens ++ quoteToks := by
    unfold repairedSrc
    rw [if_pos (by omega)]
  have hlen := spanIndices_append_length ['"'] srcTokens quoteToks
  refine ⟨by omega, ?_, ?_⟩
  · unfold mkSpans
    rw [List.length_map, pairUp_length]
    omega
  · rw [← hrep] at hmap hsm
    obtain ⟨iP, wm, out, -, -, hout⟩ := force_replace_total srcTokens tgtTokens quoteToks
      detokSrc detokTgt A mapping hne htoks hmap hsm
    exact ⟨out, hout⟩

/-- C8: in forced alignment only the two boundary positions of each source span are used,
their attention argmaxes are clamped with min at the last target-token index, each is
mapped through the piece-to-word table, and the word range is widened by one on each
side as max(0, w1 - 1) on the left and min(w2 + 1, word count) on the right; the code
clamps with the token count, which provably coincides with clamping at the word count
since every table entry is below the word count. -/
theorem claim8_boundary_word_widen (tgtTokens : List Token) (A : List (List Int))
    (srcSpans : List (Nat × Nat)) (mapping : List ((Nat × Nat) × (Int × Int)))
    (isPiece : List Int)
    (hne : tgtTokens ≠ []) (htoks : ∀ t ∈ tgtTokens, t ≠ [])
    (hip : tgtIsPieceList tgtTokens = some isPiece)
    (hmap : forcedTokenMapping A tgtTokens.length srcSpans = some mapping) :
    mapping.length = srcSpans.length ∧
    ∃ wmap, forcedWordMapping (piece2word isPiece) tgtTokens.length mapping = some wmap ∧
      wmap.length = srcSpans.length ∧
      ∀ k, k < srcSpans.length →
        mapping.getD k ((0, 0), (0, 0)) =
          (srcSpans.getD k (0, 0),
           (min ((argAt A (srcSpans.getD k (0, 0)).1 : Nat) : Int)
              ((tgtTokens.length : Int) - 1),
            min ((argAt A (srcSpans.getD k (0, 0)).2 : Nat) : Int)
              ((tgtTokens.length : Int) - 1))) ∧
        wmap.getD k ((0, 0), (0, 0)) =
          (srcSpans.getD k (0, 0),
           ((max 0 ((piece2word isPiece).getD
              (mapping.getD k ((0, 0), (0, 0))).2.1.toNat 0 - 1)).toNat,
            (min ((piece2word isPiece).getD
              (mapping.getD k ((0, 0), (0, 0))).2.2.toNat 0 + 1) isPiece.sum).toNat)) := by
  obtain ⟨iP, hip', hiplen, hipent⟩ := tgtIsPieceList_facts tgtTokens htoks
  rw [hip] at hip'
  cases Option.some.inj hip'
  have hlen1 : tgtTokens.length ≥ 1 := by
    cases tgtTokens with
    | nil => exact absurd rfl hne
    | cons t rest => simp
  have hpwlen : (piece2word isPiece).length = tgtTokens.length := by
    rw [piece2word_length, hiplen]
  obtain ⟨hmlen, hmk⟩ := forcedTokenMapping_facts A tgtTokens.length _ mapping hmap
  have hbounds : ∀ e ∈ mapping, 0 ≤ e.2.1 ∧ e.2.1 < ((piece2word isPiece).length : Int) ∧
      0 ≤ e.2.2 ∧ e.2.2 < ((piece2word isPiece).length : Int) := by
    intro e he
    obtain ⟨k, hk, hke⟩ := List.mem_iff_getElem.mp he
    have hklt : k < srcSpans.length := by omega
    have heq := hmk k hklt
    rw [List.getD_eq_getElem _ _ (by omega), hke] at heq
    rw [heq, hpwlen]
    refine ⟨le_min (Int.natCast_nonneg _) (by omega), ?_,
      le_min (Int.natCast_nonneg _) (by omega), ?_⟩
    · exact lt_of_le_of_lt (min_le_right _ _) (by omega)
    · exact lt_of_le_of_lt (min_le_right _ _) (by omega)
  obtain ⟨wmap, hwm, hwlen, hwk⟩ :=
    forcedWordMapping_facts (piece2word isPiece) tgtTokens.length mapping hbounds
  have hpos : ∀ y ∈ isPiece, (0 : Int) ≤ y := by
    intro y hy
    rcases hipent y hy with rfl | rfl <;> omega
  have hsum_le : isPiece.sum ≤ (tgtTokens.length : Int) := by
    have := sum_le_length_of_le_one isPiece (fun y hy => by
      rcases hipent y hy with rfl | rfl <;> omega)
    rw [hiplen] at this
    exact this
  refine ⟨by omega, wmap, hwm, by omega, ?_⟩
  intro k hklt
  have heq := hmk k hklt
  refine ⟨heq, ?_⟩
  have hw := hwk k (by omega)
  rw [hw, heq]
  have hw2mem : (piece2word isPiece).getD
      (mapping.getD k ((0, 0), (0, 0))).2.2.toNat 0 ∈ piece2word isPiece := by
    have hidx : (mapping.getD k ((0, 0), (0, 0))).2.2.toNat < (piece2word isPiece).length := by
      rw [heq, hpwlen]
      have : min ((argAt A (srcSpans.getD k (0, 0)).2 : Nat) : Int)
          ((tgtTokens.length : Int) - 1) ≤ (tgtTokens.length : Int) - 1 := min_le_right _ _
      show (min ((argAt A (srcSpans.getD k (0, 0)).2 : Nat) : Int)
          ((tgtTokens.length : Int) - 1)).toNat < tgtTokens.length
      omega
    rw [List.getD_eq_getElem _ _ hidx]
    exact List.getElem_mem hidx
  have hent := piece2word_entry_le hpos hw2mem
  have hmin : min ((piece2word isPiece).getD
        (mapping.getD k ((0, 0), (0, 0))).2.2.toNat 0 + 1) ((tgtTokens.length : Int)) =
      min ((piece2word isPiece).getD
        (mapping.getD k ((0, 0), (0, 0))).2.2.toNat 0 + 1) isPiece.sum := by
    omega
  rw [← heq, hmin, heq]

/-- C10 (amended): with a nonempty target of nonempty tokens the clamped boundary indices
lie inside the piece-to-word table, which has one entry per target token, so the word
lookups all succeed and the fatal branch is unreachable; the operation then returns a
string provided additionally the detokenized source supplies one quoted substring per
extracted span (without that proviso the final splice can still raise, see the
counterexample). -/
theorem claim10_word_lookup_safe (srcTokens tgtTokens quoteToks : List Token)
    (detokSrc detokTgt : List Token → Str) (A : List (List Int))
    (mapping : List ((Nat × Nat) × (Int × Int)))
    (hne : tgtTokens ≠ []) (htoks : ∀ t ∈ tgtTokens, t ≠ [])
    (hmap : forcedTokenMapping A tgtTokens.length
      (mkSpans (spanIndices ['"'] (repairedSrc srcTokens quoteToks))) = some mapping)
    (hsm : (mkSpans (spanIndices ['"'] (repairedSrc srcTokens quoteToks))).length ≤
      (quoteMatches ['"'] (detokSrc (repairedSrc srcTokens quoteToks))).length) :
    ∃ isPiece wmap out,
      tgtIsPieceList tgtTokens = some isPiece ∧
      (piece2word isPiece).length = tgtTokens.length ∧
      forcedWordMapping (piece2word isPiece) tgtTokens.length mapping = some wmap ∧
      force_replace_quoted_params srcTokens tgtTokens quoteToks detokSrc detokTgt A =
        some out := by
  obtain ⟨iP, wm, out, hip, hwm, hout⟩ := force_replace_total srcTokens tgtTokens quoteToks
    detokSrc detokTgt A mapping hne htoks hmap hsm
  obtain ⟨iP2, hip2, hiplen, -⟩ := tgtIsPieceList_facts tgtTokens htoks
  rw [hip] at hip2
  cases Option.some.inj hip2
  exact ⟨iP, wm, out, hip, by rw [piece2word_length, hiplen], hwm, hout⟩

/-- C4 counterexample: an idealized perfect translation (identical source and target
token sequences, attention aligning the single quoted span onto its counterpart) on
which strict alignment succeeds but returns a string with an extra space inserted at
each splice boundary, hence not textually identical to the original target. -/
theorem claim4_counterexample :
    replace_quoted_params [['a'], ['"'], ['b'], ['"'], ['c']] [['a'], ['"'], ['b'], ['"'], ['c']]
      joinSpace joinSpace
      [[0, 0, 0, 0, 0], [0, 0, 0, 0, 0], [0, 0, 1, 0, 0], [0, 0, 0, 0, 0], [0, 0, 0, 0, 0]]
      "en" = some (['a', ' ', ' ', '"', ' ', 'b', ' ', '"', ' ', ' ', 'c'], true) ∧
    joinSpace [['a'], ['"'], ['b'], ['"'], ['c']] =
      ['a', ' ', '"', ' ', 'b', ' ', '"', ' ', 'c'] ∧
    (['a', ' ', ' ', '"', ' ', 'b', ' ', '"', ' ', ' ', 'c'] : Str) ≠
      ['a', ' ', '"', ' ', 'b', ' ', '"', ' ', 'c'] := by
  refine ⟨by decide, by decide, by decide⟩

theorem claim4_witness :
    ∃ pieces : List Str,
      pieces.flatten = joinSpace [['a'], ['"'], ['b'], ['"'], ['c']] ∧
      replace_quoted_params [['a'], ['"'], ['b'], ['"'], ['c']]
        [['a'], ['"'], ['b'], ['"'], ['c']] joinSpace joinSpace
        [[0, 0, 0, 0, 0], [0, 0, 0, 0, 0], [0, 0, 1, 0, 0], [0, 0, 0, 0, 0], [0, 0, 0, 0, 0]]
        "en" = some (joinSpace pieces, true) :=
  claim4_round_trip [['a'], ['"'], ['b'], ['"'], ['c']] [['a'], ['"'], ['b'], ['"'], ['c']]
    joinSpace joinSpace
    [[0, 0, 0, 0, 0], [0, 0, 0, 0, 0], [0, 0, 1, 0, 0], [0, 0, 0, 0, 0], [0, 0, 0, 0, 0]]
    "en" (by decide) rfl (by decide) (by decide) (by decide) (by decide) (by decide)

/-- C5 counterexample: with the Russian target symbol set, a source quoted substring can
carry a target-locale quotation symbol in its content, so a successful substitution
changes the total quotation-symbol count of the target string from 2 to 3. -/
theorem claim5_counterexample :
    replace_quoted_params [['"'], ['«'], ['"']] [['«'], ['b'], ['»']] joinSpace joinSpace
      [[0, 0, 0], [0, 1, 0], [0, 0, 0]] "ru" = some (['"', ' ', '«', ' ', '"'], true) ∧
    countQ (tgtQuoteSyms "ru") ['"', ' ', '«', ' ', '"'] = 3 ∧
    countQ (tgtQuoteSyms "ru") (joinSpace [['«'], ['b'], ['»']]) = 2 := by
  refine ⟨by decide, by decide, by decide⟩

theorem claim5_witness :
    countQ (tgtQuoteSyms "en") ['a', ' ', ' ', '"', ' ', 'b', ' ', '"', ' ', ' ', 'c'] =
      countQ (tgtQuoteSyms "en") (joinSpace [['a'], ['"'], ['b'], ['"'], ['c']]) :=
  claim5_quote_count [['a'], ['"'], ['b'], ['"'], ['c']] [['a'], ['"'], ['b'], ['"'], ['c']]
    joinSpace joinSpace
    [[0, 0, 0, 0, 0], [0, 0, 0, 0, 0], [0, 0, 1, 0, 0], [0, 0, 0, 0, 0], [0, 0, 0, 0, 0]]
    "en" (by decide) ['a', ' ', ' ', '"', ' ', 'b', ' ', '"', ' ', ' ', 'c'] true (by decide)

/-- C6 counterexample: two adjacent quotation-mark tokens yield the span (1, 0), which
violates the claimed invariant start ≤ end. -/
theorem claim6_counterexample :
    ¬ ∀ sp ∈ mkSpans (spanIndices ['"'] [['"'], ['"']]), sp.1 ≤ sp.2 := by
  decide

theorem claim6_witness :
    (mkSpans (spanIndices ['"'] [['"'], ['a'], ['"']])).length =
      (spanIndices ['"'] [['"'], ['a'], ['"']]).length / 2 :=
  (claim6_span_pairing ['"'] [['"'], ['a'], ['"']] (by decide)).1.1

theorem claim1_witness :
    (['a', ' ', '"', ' ', 'b', ' ', '"', ' ', 'c'] : Str) =
      joinSpace [['a'], ['"'], ['b'], ['"'], ['c']] :=
  claim1_unchanged_on_failure [['"'], ['a']] [['a'], ['"'], ['b'], ['"'], ['c']]
    joinSpace joinSpace [] "en" ['a', ' ', '"', ' ', 'b', ' ', '"', ' ', 'c'] (by decide)

theorem claim2_witness :
    ([0] : List Nat).Nodup ∧
    replace_quoted_params [['a'], ['"'], ['b'], ['"']] [['a'], ['"'], ['b'], ['"']]
      joinSpace joinSpace [[0, 0, 0, 0], [0, 0, 0, 0], [0, 0, 0, 0], [0, 0, 0, 0]] "en" =
      some (joinSpace [['a'], ['"'], ['b'], ['"']], false) :=
  ⟨(claim2_first_match_claiming
      [[0, 0, 0, 0, 0], [0, 0, 0, 0, 0], [0, 0, 1, 0, 0], [0, 0, 0, 0, 0], [0, 0, 0, 0, 0]]
      [(2, 2)]).2.2.1 [(2, 2)] [0] (by decide),
   (claim2_first_match_claiming [[0, 0, 0, 0], [0, 0, 0, 0], [0, 0, 0, 0], [0, 0, 0, 0]]
      []).2.2.2 [['a'], ['"'], ['b'], ['"']] [['a'], ['"'], ['b'], ['"']]
      joinSpace joinSpace "en" (by decide) (by decide) (by decide) (by decide)⟩

theorem claim3_witness :
    replace_quoted_params [['"'], ['a'], ['"']]
      [['"'], ['a'], ['"'], ['"'], ['b'], ['"']] joinSpace joinSpace [] "en" =
      some (joinSpace [['"'], ['a'], ['"'], ['"'], ['b'], ['"']], false) :=
  claim3_span_count_mismatch [['"'], ['a'], ['"']]
    [['"'], ['a'], ['"'], ['"'], ['b'], ['"']] joinSpace joinSpace [] "en"
    (by decide) (by decide) (by decide)

theorem claim7_witness :
    (spanIndices ['"'] ([['s'], ['"'], ['7']] ++ [['"']])).length % 2 = 0 ∧
    (mkSpans (spanIndices ['"'] ([['s'], ['"'], ['7']] ++ [['"']]))).length =
      ((spanIndices ['"'] [['s'], ['"'], ['7']]).length + 1) / 2 ∧
    ∃ out, force_replace_quoted_params [['s'], ['"'], ['7']]
      [['▁', 's'], ['▁', '8'], ['▁', 'z']] [['"']] joinSpace joinSpace
      [[0, 0, 0, 0], [0, 1, 1, 1], [0, 0, 0, 0]] = some out :=
  claim7_auto_repair [['s'], ['"'], ['7']] [['▁', 's'], ['▁', '8'], ['▁', 'z']] [['"']]
    joinSpace joinSpace [[0, 0, 0, 0], [0, 1, 1, 1], [0, 0, 0, 0]]
    [((2, 2), ((1 : Int), (1 : Int)))] (by decide) (by decide) (by decide) (by decide)
    (by decide) (by decide)

theorem claim8_witness :
    ([((2, 2), ((1 : Int), (1 : Int)))] : List ((Nat × Nat) × (Int × Int))).length =
      ([(2, 2)] : List (Nat × Nat)).length :=
  (claim8_boundary_word_widen [['▁', 's'], ['▁', '8'], ['▁', 'z']]
    [[0, 0, 0, 0], [0, 1, 1, 1], [0, 0, 0, 0]] [(2, 2)]
    [((2, 2), ((1 : Int), (1 : Int)))] [1, 1, 1] (by decide) (by decide) (by decide)
    (by decide)).1

theorem claim9_witness :
    repairedSrc ([] : List Token) [['"']] = [] ∧
    repairedSrc [['"']] [['"']] = [['"']] ++ [['"']] :=
  ⟨(claim9_no_mutation [] [['"']]).1 (by decide),
   (claim9_no_mutation [['"']] [['"']]).2 (by decide)⟩

/-- C10 counterexample: a nonempty target of nonempty tokens on which forced alignment
still raises, because the detokenized source contains no quoted substring and the final
splice indexes past the end of the source match list; the nonemptiness precondition
alone does not make the operation return a string. -/
theorem claim10_counterexample :
    ([['▁', 'x']] : List Token) ≠ [] ∧
    (∀ t ∈ ([['▁', 'x']] : List Token), t ≠ []) ∧
    force_replace_quoted_params [['"'], ['a'], ['"']] [['▁', 'x']] [['"']]
      (fun _ => []) joinSpace [[0, 0, 0]] = none := by
  refine ⟨by decide, by decide, by decide⟩

theorem claim10_witness :
    ∃ isPiece wmap out,
      tgtIsPieceList [['▁', 's'], ['▁', '8'], ['▁', 'z']] = some isPiece ∧
      (piece2word isPiece).length = ([['▁', 's'], ['▁', '8'], ['▁', 'z']] : List Token).length ∧
      forcedWordMapping (piece2word isPiece)
        ([['▁', 's'], ['▁', '8'], ['▁', 'z']] : List Token).length
        [((2, 2), ((1 : Int), (1 : Int)))] = some wmap ∧
      force_replace_quoted_params [['s'], ['"'], ['7'], ['"']]
        [['▁', 's'], ['▁', '8'], ['▁', 'z']] [['"']] joinSpace joinSpace
        [[0, 0, 0, 0], [0, 1, 1, 1], [0, 0, 0, 0]] = some out :=
  claim10_word_lookup_safe [['s'], ['"'], ['7'], ['"']] [['▁', 's'], ['▁', '8'], ['▁', 'z']]
    [['"']] joinSpace joinSpace [[0, 0, 0, 0], [0, 1, 1, 1], [0, 0, 0, 0]]
    [((2, 2), ((1 : Int), (1 : Int)))] (by decide) (by decide) (by decide) (by decide)

end GenieNLP
